import Mathlib

/-!
Shallow embedding of the facebookarchive/dockerutil repository: the
`dockerutil` package (`ImageID` from dockerutil.go, `CreateWithPull` from
start.go) and the `dockergoal` package (dockergoal/dockergoal.go:
`Container.Apply`, the per-axis configuration checks, and `ApplyGraph`).

The container engine (`dockerclient.Client`) is the only external system.
It is modelled as a `Handler`: a state type `σ` together with one response
function per engine capability that the repository uses.  Every embedded
operation returns an `Out`: its result, the final handler state, and the
ordered list of engine calls it made.  This makes the claims about call
ordering, call counts and absence of mutations directly statable.
-/

namespace Dockerclient

/-- Registry credentials (`dockerclient.AuthConfig`); their contents are
irrelevant to control flow, they are only forwarded to `PullImage`. -/
structure AuthConfig where
  username : String
deriving DecidableEq, Repr

/-- Engine-side image record (`dockerclient.Image`): repo tags and content id. -/
structure Image where
  repoTags : List String
  id : String
deriving DecidableEq, Repr

/-- The fields of `dockerclient.ContainerConfig` that the repository reads. -/
structure ContainerConfig where
  image : String
  cmd : List String
  env : List String
deriving DecidableEq, Repr

/-- The fields of `dockerclient.HostConfig` that the repository reads. -/
structure HostConfig where
  dns : List String
  binds : List String
  links : List String
deriving DecidableEq, Repr

/-- Inspection snapshot (`dockerclient.ContainerInfo`).  `running` stands for
`State.Running`; `volumes` is the `Volumes` map `destination -> source`,
kept as an association list in the engine's iteration order.  `Config` is
modelled as a plain field because the repository dereferences it
unconditionally. -/
structure ContainerInfo where
  id : String
  image : String
  running : Bool
  config : ContainerConfig
  hostConfig : Option HostConfig
  volumes : List (String × String)
deriving DecidableEq, Repr

/-- Errors.  `notFound` is the `dockerclient.ErrNotFound` sentinel, compared
by identity in the source; `wrapped e` is `stackerr.Wrap(e)`; the mismatch
constructors carry exactly the values the corresponding `stackerr.Newf`
formats into its message; `engine` is an arbitrary error injected by the
engine; `unknownLink` is the `ApplyGraph` validation error. -/
inductive Err where
  | notFound
  | engine (code : Nat)
  | wrapped (e : Err)
  | imageNotIdentified (imageName : String)
  | imageMismatch (name curImageID desiredImage desiredImageID : String)
  | dnsMismatch (name : String) (cur desired : List String)
  | cmdMismatch (name : String) (cur desired : List String)
  | envMismatch (name : String) (cur desired : List String)
  | bindsMismatch (name : String) (cur : List (String × String)) (desired : List String)
  | unknownLink (name link : String)
deriving DecidableEq, Repr

/-- Decidable equality for `Except`, needed to evaluate runs on concrete
inputs. -/
instance {ε α : Type} [DecidableEq ε] [DecidableEq α] : DecidableEq (Except ε α) := fun a b =>
  match a, b with
  | .ok x, .ok y =>
    if h : x = y then isTrue (by rw [h]) else isFalse fun hc => h (by injection hc)
  | .error x, .error y =>
    if h : x = y then isTrue (by rw [h]) else isFalse fun hc => h (by injection hc)
  | .ok _, .error _ => isFalse fun hc => by injection hc
  | .error _, .ok _ => isFalse fun hc => by injection hc

/-- One engine call, as recorded in a run's trace. -/
inductive Call where
  | inspect (name : String)
  | create (config : ContainerConfig) (name : String)
  | remove (id : String) (force volumes : Bool)
  | start (id : String) (hostConfig : Option HostConfig)
  | listImages
  | pull (image : String) (auth : Option AuthConfig)
deriving DecidableEq, Repr

/-- Engine model: a state type plus one response function per capability of
the `dockerclient.Client` interface that the repository calls. -/
structure Handler (σ : Type) where
  inspectContainer : σ → String → Except Err ContainerInfo × σ
  createContainer : σ → ContainerConfig → String → Except Err String × σ
  removeContainer : σ → String → Bool → Bool → Option Err × σ
  startContainer : σ → String → Option HostConfig → Option Err × σ
  listImages : σ → Except Err (List Image) × σ
  pullImage : σ → String → Option AuthConfig → Option Err × σ

/-- Result of running an embedded operation: a value, the final engine
state, and the engine calls made, in order. -/
structure Out (σ : Type) (α : Type) where
  res : α
  st : σ
  tr : List Call
deriving DecidableEq, Repr

/-- Mutating engine calls, in the sense of the specification: container
creation, removal and start. -/
def isMutation : Call → Bool
  | .create _ _ => true
  | .remove _ _ _ => true
  | .start _ _ => true
  | _ => false

/-- A trace makes no mutating engine call. -/
def noMutation (t : List Call) : Bool :=
  t.all fun x => ! isMutation x

def isRemoveCall : Call → Bool
  | .remove _ _ _ => true
  | _ => false

def isCreateCall : Call → Bool
  | .create _ _ => true
  | _ => false

def isStartCall : Call → Bool
  | .start _ _ => true
  | _ => false

def isPullCall : Call → Bool
  | .pull _ _ => true
  | _ => false

/-- Number of calls in a trace satisfying `p`. -/
def countCalls (p : Call → Bool) (t : List Call) : Nat :=
  (t.filter p).length

end Dockerclient

namespace Dockerutil

open Dockerclient

/-- Inner loops of Go `imageIDFromList` (dockerutil.go): the id of the first
image one of whose repo tags equals `imageName`, or `""` when there is none. -/
def findTagId : List Image → String → String
  | [], _ => ""
  | i :: rest, imageName =>
    if imageName ∈ i.repoTags then i.id else findTagId rest imageName

/-- Go `imageIDFromList` (dockerutil.go): list the engine's images and scan
them for `imageName`; a listing error is wrapped. -/
def imageIDFromList {σ : Type} (h : Handler σ) (s : σ) (imageName : String) :
    Out σ (Except Err String) :=
  match h.listImages s with
  | (.error e, s1) => ⟨.error (.wrapped e), s1, [.listImages]⟩
  | (.ok images, s1) => ⟨.ok (findTagId images imageName), s1, [.listImages]⟩

/-- Go `ImageID` (dockerutil.go): resolve an image name to its id; when the
name is not tagged locally, pull it and re-scan the listing once. -/
def ImageID {σ : Type} (h : Handler σ) (s : σ) (imageName : String)
    (auth : Option AuthConfig) : Out σ (Except Err String) :=
  match imageIDFromList h s imageName with
  | ⟨.error e, s1, t1⟩ => ⟨.error e, s1, t1⟩
  | ⟨.ok id0, s1, t1⟩ =>
    if id0 ≠ "" then ⟨.ok id0, s1, t1⟩
    else
      match h.pullImage s1 imageName auth with
      | (some e, s2) => ⟨.error (.wrapped e), s2, t1 ++ [.pull imageName auth]⟩
      | (none, s2) =>
        match imageIDFromList h s2 imageName with
        | ⟨.error e, s3, t2⟩ => ⟨.error e, s3, t1 ++ [.pull imageName auth] ++ t2⟩
        | ⟨.ok id1, s3, t2⟩ =>
          if id1 ≠ "" then ⟨.ok id1, s3, t1 ++ [.pull imageName auth] ++ t2⟩
          else ⟨.error (.imageNotIdentified imageName), s3,
                t1 ++ [.pull imageName auth] ++ t2⟩

/-- Go `CreateWithPull` (start.go): try a direct create; exactly when the
engine reports the not-found sentinel, pull the image and retry the create
once, returning the second attempt's result; any other first-attempt error
is wrapped and returned with no pull. -/
def CreateWithPull {σ : Type} (h : Handler σ) (s : σ) (c : ContainerConfig)
    (name : String) (ac : Option AuthConfig) : Out σ (Except Err String) :=
  match h.createContainer s c name with
  | (.ok id0, s1) => ⟨.ok id0, s1, [.create c name]⟩
  | (.error err, s1) =>
    if err ≠ Err.notFound then ⟨.error (.wrapped err), s1, [.create c name]⟩
    else
      match h.pullImage s1 c.image ac with
      | (some e, s2) => ⟨.error (.wrapped e), s2, [.create c name, .pull c.image ac]⟩
      | (none, s2) =>
        match h.createContainer s2 c name with
        | (.ok id1, s3) =>
          ⟨.ok id1, s3, [.create c name, .pull c.image ac, .create c name]⟩
        | (.error e, s3) =>
          ⟨.error (.wrapped e), s3, [.create c name, .pull c.image ac, .create c name]⟩

end Dockerutil

namespace Dockergoal

open Dockerclient Dockerutil

/-- Go `equalStrSlice` (dockergoal.go): same length and pointwise equal. -/
def equalStrSlice : List String → List String → Bool
  | [], [] => true
  | a :: ta, b :: tb => if a = b then equalStrSlice ta tb else false
  | _, _ => false

/-- Go `containsStr` (dockergoal.go). -/
def containsStr : List String → String → Bool
  | [], _ => false
  | v :: rest, target => if v = target then true else containsStr rest target

/-- Go `strSliceSubset` (dockergoal.go): every element of `subset` occurs
somewhere in `big`. -/
def strSliceSubset (big : List String) : List String → Bool
  | [] => true
  | v :: rest => if containsStr big v then strSliceSubset big rest else false

/-- Go `hasSuffixStrSlice` (dockergoal.go): false when `suffix` is longer
than `s`, otherwise the trailing `suffix.length` elements of `s` must equal
`suffix`. -/
def hasSuffixStrSlice (s suffix : List String) : Bool :=
  if suffix.length > s.length then false
  else equalStrSlice (s.drop (s.length - suffix.length)) suffix

/-- Go `flattenVolumes` (dockergoal.go).  The source does
`res := make([]string, len(volumes))` and then appends `v + ":" + k` for
each entry, so the result keeps `len(volumes)` leading empty strings in
front of the `source:destination` pairs. -/
def flattenVolumes (volumes : List (String × String)) : List String :=
  List.replicate volumes.length "" ++ volumes.map fun kv => kv.2 ++ ":" ++ kv.1

/-- Go `Container` (dockergoal.go): a desired container state.
`containerConfig` is modelled as a plain field because the repository
dereferences it unconditionally; `afterCreate` is the optional hook. -/
structure Container where
  name : String
  containerConfig : ContainerConfig
  hostConfig : Option HostConfig
  removeExisting : Bool
  forceRemoveExisting : Bool
  authConfig : Option AuthConfig
  afterCreate : Option (String → Option Err)

/-- Go `checkExistingImage` (dockergoal.go): resolve the desired image name
to an id via `ImageID` and compare with the observed image id.  The Go pair
`(false, err)` is `.error err`, `(b, nil)` is `.ok b`. -/
def Container.checkExistingImage {σ : Type} (c : Container) (h : Handler σ)
    (s : σ) (current : ContainerInfo) : Out σ (Except Err Bool) :=
  match ImageID h s c.containerConfig.image c.authConfig with
  | ⟨.error e, s1, t1⟩ => ⟨.error e, s1, t1⟩
  | ⟨.ok desiredImageID, s1, t1⟩ =>
    if current.image ≠ desiredImageID then
      if ¬ c.removeExisting then
        ⟨.error (.imageMismatch c.name current.image c.containerConfig.image desiredImageID),
         s1, t1⟩
      else ⟨.ok false, s1, t1⟩
    else ⟨.ok true, s1, t1⟩

/-- Go `checkExistingDNS` (dockergoal.go); pure, makes no engine call. -/
def Container.checkExistingDNS (c : Container) (current : ContainerInfo) :
    Bool × Option Err :=
  let desiredDNS := match c.hostConfig with | some hc => hc.dns | none => []
  let currentDNS := match current.hostConfig with | some hc => hc.dns | none => []
  if ¬ equalStrSlice currentDNS desiredDNS then
    if ¬ c.removeExisting then
      (false, some (.dnsMismatch c.name currentDNS desiredDNS))
    else (false, none)
  else (true, none)

/-- Go `checkExistingCmd` (dockergoal.go): the observed command must end
with the desired command; pure. -/
def Container.checkExistingCmd (c : Container) (current : ContainerInfo) :
    Bool × Option Err :=
  if ¬ hasSuffixStrSlice current.config.cmd c.containerConfig.cmd then
    if ¬ c.removeExisting then
      (false, some (.cmdMismatch c.name current.config.cmd c.containerConfig.cmd))
    else (false, none)
  else (true, none)

/-- Go `checkExistingEnv` (dockergoal.go): the desired environment must be a
subset of the observed one; pure. -/
def Container.checkExistingEnv (c : Container) (current : ContainerInfo) :
    Bool × Option Err :=
  if ¬ strSliceSubset current.config.env c.containerConfig.env then
    if ¬ c.removeExisting then
      (false, some (.envMismatch c.name current.config.env c.containerConfig.env))
    else (false, none)
  else (true, none)

/-- Go `checkExistingBinds` (dockergoal.go): when a host configuration is
set, the desired binds must be a subset of the flattened observed volumes;
the Go guard `c.hostConfig != nil && ...` makes the check vacuous when the
host configuration is absent; pure. -/
def Container.checkExistingBinds (c : Container) (current : ContainerInfo) :
    Bool × Option Err :=
  match c.hostConfig with
  | some hc =>
    if ¬ strSliceSubset (flattenVolumes current.volumes) hc.binds then
      if ¬ c.removeExisting then
        (false, some (.bindsMismatch c.name current.volumes hc.binds))
      else (false, none)
    else (true, none)
  | none => (true, none)

/-- Outcome of one Go check `(equal, err)` as consumed by `checkExisting`:
the source returns `(false, err)` early when `!equal || err != nil`, and
continues to the next check otherwise (`none` here). -/
def liftCheck : Bool × Option Err → Option (Except Err Bool)
  | (true, none) => none
  | (_, some e) => some (.error e)
  | (false, none) => some (.ok false)

/-- Go `checkExisting` (dockergoal.go): the five per-axis checks in source
order, short-circuiting at the first one that does not pass. -/
def Container.checkExisting {σ : Type} (c : Container) (h : Handler σ)
    (s : σ) (current : ContainerInfo) : Out σ (Except Err Bool) :=
  match c.checkExistingImage h s current with
  | ⟨.error e, s1, t1⟩ => ⟨.error e, s1, t1⟩
  | ⟨.ok equal, s1, t1⟩ =>
    if ¬ equal then ⟨.ok false, s1, t1⟩
    else
      match liftCheck (c.checkExistingDNS current) with
      | some r => ⟨r, s1, t1⟩
      | none =>
        match liftCheck (c.checkExistingCmd current) with
        | some r => ⟨r, s1, t1⟩
        | none =>
          match liftCheck (c.checkExistingEnv current) with
          | some r => ⟨r, s1, t1⟩
          | none =>
            match liftCheck (c.checkExistingBinds current) with
            | some r => ⟨r, s1, t1⟩
            | none => ⟨.ok true, s1, t1⟩

/-- Create path of Go `Apply` (dockergoal.go): `CreateWithPull`, then
re-inspect by name to obtain the fresh container (a failure of this
re-inspect is wrapped, including the not-found sentinel). -/
def Container.applyCreate {σ : Type} (c : Container) (h : Handler σ) (s : σ) :
    Out σ (Except Err ContainerInfo) :=
  match CreateWithPull h s c.containerConfig c.name c.authConfig with
  | ⟨.error e, s1, t1⟩ => ⟨.error e, s1, t1⟩
  | ⟨.ok _, s1, t1⟩ =>
    match h.inspectContainer s1 c.name with
    | (.error e, s2) => ⟨.error (.wrapped e), s2, t1 ++ [.inspect c.name]⟩
    | (.ok ci, s2) => ⟨.ok ci, s2, t1 ++ [.inspect c.name]⟩

/-- Start tail of Go `Apply` (dockergoal.go): start the container; when the
create path was taken and an `afterCreate` hook is set, run it, and on hook
failure remove the fresh container best-effort (the removal's own error is
discarded) and return the hook error wrapped. -/
def Container.applyStart {σ : Type} (c : Container) (h : Handler σ) (s : σ)
    (ci : ContainerInfo) (createIt : Bool) : Out σ (Option Err) :=
  match h.startContainer s ci.id c.hostConfig with
  | (some e, s1) => ⟨some (.wrapped e), s1, [.start ci.id c.hostConfig]⟩
  | (none, s1) =>
    match createIt, c.afterCreate with
    | true, some f =>
      match f ci.id with
      | some e =>
        match h.removeContainer s1 ci.id true false with
        | (_, s2) =>
          ⟨some (.wrapped e), s2, [.start ci.id c.hostConfig, .remove ci.id true false]⟩
      | none => ⟨none, s1, [.start ci.id c.hostConfig]⟩
    | _, _ => ⟨none, s1, [.start ci.id c.hostConfig]⟩

/-- Create-then-start tail of Go `Apply`, used by every path that sets
`createIt`. -/
def Container.applyCreatePath {σ : Type} (c : Container) (h : Handler σ)
    (s : σ) : Out σ (Option Err) :=
  match c.applyCreate h s with
  | ⟨.error e, s1, t1⟩ => ⟨some e, s1, t1⟩
  | ⟨.ok ci, s1, t1⟩ =>
    match c.applyStart h s1 ci true with
    | ⟨r, s2, t2⟩ => ⟨r, s2, t1 ++ t2⟩

/-- Go `Container.Apply` (dockergoal.go): inspect, then branch on
not-found / force-remove / configuration check, create when needed, and
start. -/
def Container.Apply {σ : Type} (c : Container) (h : Handler σ) (s : σ) :
    Out σ (Option Err) :=
  match h.inspectContainer s c.name with
  | (.error e, s1) =>
    if e ≠ Err.notFound then ⟨some (.wrapped e), s1, [.inspect c.name]⟩
    else
      match c.applyCreatePath h s1 with
      | ⟨r, s2, t⟩ => ⟨r, s2, .inspect c.name :: t⟩
  | (.ok ci, s1) =>
    if c.forceRemoveExisting then
      match h.removeContainer s1 ci.id true false with
      | (some e, s2) => ⟨some (.wrapped e), s2, [.inspect c.name, .remove ci.id true false]⟩
      | (none, s2) =>
        match c.applyCreatePath h s2 with
        | ⟨r, s3, t⟩ => ⟨r, s3, .inspect c.name :: .remove ci.id true false :: t⟩
    else
      match c.checkExisting h s1 ci with
      | ⟨.error e, s2, t1⟩ => ⟨some e, s2, .inspect c.name :: t1⟩
      | ⟨.ok true, s2, t1⟩ =>
        if ci.running then ⟨none, s2, .inspect c.name :: t1⟩
        else
          match c.applyStart h s2 ci false with
          | ⟨r, s3, t2⟩ => ⟨r, s3, .inspect c.name :: (t1 ++ t2)⟩
      | ⟨.ok false, s2, t1⟩ =>
        match h.removeContainer s2 ci.id true false with
        | (some e, s3) => ⟨some (.wrapped e), s3, .inspect c.name :: (t1 ++ [.remove ci.id true false])⟩
        | (none, s3) =>
          match c.applyCreatePath h s3 with
          | ⟨r, s4, t2⟩ =>
            ⟨r, s4, .inspect c.name :: (t1 ++ [.remove ci.id true false] ++ t2)⟩

/-- Characters of a link name up to the first colon. -/
def linkTargetChars : List Char → List Char
  | [] => []
  | ch :: rest => if ch = ':' then [] else ch :: linkTargetChars rest

/-- Target name of a link `"<name>:<alias>"`: the text before the first
colon, Go `strings.Split(link, ":")[0]`. -/
def linkTarget (link : String) : String :=
  ⟨linkTargetChars link.data⟩

/-- Links declared by a container; Go guards with `c.hostConfig != nil`. -/
def Container.links (c : Container) : List String :=
  match c.hostConfig with
  | some hc => hc.links
  | none => []

/-- Result of scanning one pending container's links inside `ApplyGraph`. -/
inductive LinkCheck where
  | ok
  | deferred
  | unknown (link : String)
deriving DecidableEq, Repr

/-- Inner link loop of Go `ApplyGraph`: the first link with an unknown
target aborts; otherwise the first link whose target is known but not yet
started defers the container to the next round. -/
def checkLinks (known started : List String) : List String → LinkCheck
  | [] => .ok
  | link :: rest =>
    if linkTarget link ∉ known then .unknown link
    else if linkTarget link ∉ started then .deferred
    else checkLinks known started rest

/-- Outcome of one round of Go `ApplyGraph`: on success, the names started
this round and the deferred containers for the next round.  `applied` lists
the names whose `Apply` was invoked this round, in order. -/
structure RoundOut (σ : Type) where
  res : Except Err (List String × List Container)
  st : σ
  tr : List Call
  applied : List String

/-- The `pendingLoop` of Go `ApplyGraph`: process the pending containers in
order; an unknown link aborts the whole call, an unmet dependency defers the
container, and a ready container is applied (an `Apply` error aborts). -/
def applyRound {σ : Type} (h : Handler σ) (known started : List String) :
    List Container → σ → RoundOut σ
  | [], s => ⟨.ok ([], []), s, [], []⟩
  | c :: rest, s =>
    match checkLinks known started c.links with
    | .unknown link => ⟨.error (.unknownLink c.name link), s, [], []⟩
    | .deferred =>
      match applyRound h known started rest s with
      | ⟨.ok (starting, nextRound), s1, t, applied⟩ =>
        ⟨.ok (starting, c :: nextRound), s1, t, applied⟩
      | ⟨.error e, s1, t, applied⟩ => ⟨.error e, s1, t, applied⟩
    | .ok =>
      match c.Apply h s with
      | ⟨some e, s1, t⟩ => ⟨.error e, s1, t, [c.name]⟩
      | ⟨none, s1, t⟩ =>
        match applyRound h known started rest s1 with
        | ⟨.ok (starting, nextRound), s2, t2, applied⟩ =>
          ⟨.ok (c.name :: starting, nextRound), s2, t ++ t2, c.name :: applied⟩
        | ⟨.error e, s2, t2, applied⟩ =>
          ⟨.error e, s2, t ++ t2, c.name :: applied⟩

/-- Result of `ApplyGraph`.  The Go round loop has no termination guard
against dependency cycles; `outOfFuel` marks the runs on which the source
would loop forever. -/
inductive GraphResult where
  | ok
  | err (e : Err)
  | outOfFuel
deriving DecidableEq, Repr

/-- Result of running `ApplyGraph`: outcome, final engine state, trace, and
the container names whose `Apply` was invoked, in invocation order. -/
structure GraphOut (σ : Type) where
  res : GraphResult
  st : σ
  tr : List Call
  applied : List String
deriving DecidableEq, Repr

/-- Round loop of Go `ApplyGraph`: after a successful round, the names
started in it are added to `started` and the deferred containers become the
next round's pending set.  `fuel` bounds the number of rounds. -/
def applyRounds {σ : Type} (h : Handler σ) (known : List String) :
    Nat → List Container → List String → σ → GraphOut σ
  | _, [], _, s => ⟨.ok, s, [], []⟩
  | 0, _ :: _, _, s => ⟨.outOfFuel, s, [], []⟩
  | fuel + 1, c :: rest, started, s =>
    match applyRound h known started (c :: rest) s with
    | ⟨.error e, s1, t, applied⟩ => ⟨.err e, s1, t, applied⟩
    | ⟨.ok (starting, nextRound), s1, t, applied⟩ =>
      match applyRounds h known fuel nextRound (started ++ starting) s1 with
      | ⟨r, s2, t2, applied2⟩ => ⟨r, s2, t ++ t2, applied ++ applied2⟩

/-- Go `ApplyGraph` (dockergoal.go), with the round fuel made explicit. -/
def ApplyGraph {σ : Type} (h : Handler σ) (fuel : Nat)
    (containers : List Container) (s : σ) : GraphOut σ :=
  applyRounds h (containers.map Container.name) fuel containers [] s

end Dockergoal

namespace Dockergoal

open Dockerclient Dockerutil

/-- Lookup of a container by name in the reference engine state. -/
def lookupContainer : List (String × ContainerInfo) → String → Option ContainerInfo
  | [], _ => none
  | (n, ci) :: rest, name => if n = name then some ci else lookupContainer rest name

/-- Reference engine state used to instantiate the handler on concrete
runs: named containers, the local image catalog, and the images a pull can
fetch. -/
structure EngineState where
  containers : List (String × ContainerInfo)
  images : List Image
  registry : List Image
deriving DecidableEq, Repr

/-- First registry image carrying the given tag. -/
def findRegistryImage : List Image → String → Option Image
  | [], _ => none
  | i :: rest, name => if name ∈ i.repoTags then some i else findRegistryImage rest name

/-- Reference engine: a deterministic `Handler` over `EngineState` with the
natural semantics of each call.  Creating requires the image to be locally
tagged (otherwise the not-found sentinel, as the real daemon reports);
pulling moves an image from the registry into the local catalog. -/
def stdEngine : Handler EngineState where
  inspectContainer := fun s name =>
    match lookupContainer s.containers name with
    | some ci => (.ok ci, s)
    | none => (.error .notFound, s)
  createContainer := fun s cfg name =>
    match lookupContainer s.containers name with
    | some _ => (.error (.engine 409), s)
    | none =>
      let imgId := findTagId s.images cfg.image
      if imgId = "" then (.error .notFound, s)
      else
        let ci : ContainerInfo :=
          { id := name ++ ".id", image := imgId, running := false,
            config := cfg, hostConfig := none, volumes := [] }
        (.ok ci.id, { s with containers := s.containers ++ [(name, ci)] })
  removeContainer := fun s cid _force _volumes =>
    if (s.containers.filter fun p => p.2.id = cid).isEmpty then (some (.engine 404), s)
    else (none, { s with containers := s.containers.filter fun p => ¬ p.2.id = cid })
  startContainer := fun s cid _hc =>
    if (s.containers.filter fun p => p.2.id = cid).isEmpty then (some (.engine 404), s)
    else
      (none, { s with containers := s.containers.map fun p =>
        if p.2.id = cid then (p.1, { p.2 with running := true }) else p })
  listImages := fun s => (.ok s.images, s)
  pullImage := fun s name _auth =>
    match findRegistryImage s.registry name with
    | some i => (none, { s with images := s.images ++ [i] })
    | none => (some (.engine 500), s)

end Dockergoal

namespace Dockergoal

open Dockerclient Dockerutil

theorem equalStrSlice_iff (a b : List String) : equalStrSlice a b = true ↔ a = b := by
  induction a generalizing b with
  | nil => cases b <;> simp [equalStrSlice]
  | cons x ta ih =>
    cases b with
    | nil => simp [equalStrSlice]
    | cons y tb =>
      simp only [equalStrSlice]
      split
      · rename_i hx
        subst hx
        rw [ih]
        simp
      · rename_i hx
        simp only [List.cons.injEq]
        constructor
        · intro hfalse
          exact absurd hfalse (by simp)
        · intro ⟨h1, _⟩
          exact absurd h1 hx

theorem containsStr_iff (l : List String) (t : String) : containsStr l t = true ↔ t ∈ l := by
  induction l with
  | nil => simp [containsStr]
  | cons x rest ih =>
    simp only [containsStr]
    split
    · rename_i hx
      subst hx
      simp
    · rename_i hx
      rw [ih, List.mem_cons]
      exact (or_iff_right fun h => hx h.symm).symm

theorem strSliceSubset_iff (big sub : List String) :
    strSliceSubset big sub = true ↔ ∀ x ∈ sub, x ∈ big := by
  induction sub with
  | nil => simp [strSliceSubset]
  | cons v rest ih =>
    simp only [strSliceSubset]
    split
    · rename_i hv
      rw [ih]
      simp only [List.mem_cons]
      constructor
      · intro hall x hx
        rcases hx with hx | hx
        · subst hx
          exact (containsStr_iff big x).mp hv
        · exact hall x hx
      · intro hall x hx
        exact hall x (Or.inr hx)
    · rename_i hv
      constructor
      · intro hfalse
        exact absurd hfalse (by simp)
      · intro hall
        exact absurd ((containsStr_iff big v).mpr (hall v (by simp))) hv

theorem hasSuffixStrSlice_iff (s suf : List String) :
    hasSuffixStrSlice s suf = true ↔
      suf.length ≤ s.length ∧ s.drop (s.length - suf.length) = suf := by
  unfold hasSuffixStrSlice
  split
  · rename_i hgt
    constructor
    · intro hfalse
      exact absurd hfalse (by simp)
    · intro ⟨hle, _⟩
      omega
  · rename_i hgt
    rw [equalStrSlice_iff]
    constructor
    · intro hd
      exact ⟨by omega, hd⟩
    · intro ⟨_, hd⟩
      exact hd

/-- C9: for all string sequences A and B, `strSliceSubset A B` holds iff
every element of B appears in A, and `hasSuffixStrSlice A B` holds iff B is
no longer than A and A's trailing `|B|` elements equal B; both accept an
empty B, and the suffix check rejects any B longer than A. -/
theorem strSlice_subset_suffix_spec (a b : List String) :
    (strSliceSubset a b = true ↔ ∀ x ∈ b, x ∈ a) ∧
    (hasSuffixStrSlice a b = true ↔
      b.length ≤ a.length ∧ a.drop (a.length - b.length) = b) ∧
    strSliceSubset a [] = true ∧
    hasSuffixStrSlice a [] = true ∧
    (a.length < b.length → hasSuffixStrSlice a b = false) := by
  refine ⟨strSliceSubset_iff a b, hasSuffixStrSlice_iff a b, rfl, ?_, ?_⟩
  · rw [hasSuffixStrSlice]
    simp [equalStrSlice_iff]
  · intro hlt
    rw [hasSuffixStrSlice]
    simp only [gt_iff_lt]
    rw [if_pos hlt]

theorem strSlice_subset_suffix_spec_witness :
    hasSuffixStrSlice ["a"] ["b", "c"] = false ∧
    strSliceSubset ["a", "b"] ["b"] = true :=
  ⟨(strSlice_subset_suffix_spec ["a"] ["b", "c"]).2.2.2.2 (by decide),
   (strSlice_subset_suffix_spec ["a", "b"] ["b"]).1.mpr (by decide)⟩

/-- C10: when a container spec has no host configuration, the bind-mount
check passes vacuously for every observed container. -/
theorem checkExistingBinds_none_hostConfig (c : Container) (ci : ContainerInfo)
    (hn : c.hostConfig = none) :
    Container.checkExistingBinds c ci = (true, none) := by
  unfold Container.checkExistingBinds
  rw [hn]

theorem checkExistingBinds_none_hostConfig_witness :
    Container.checkExistingBinds
      ⟨"w", ⟨"img", [], []⟩, none, false, false, none, none⟩
      ⟨"wid", "I", true, ⟨"img", [], []⟩, none, [("b", "a")]⟩ = (true, none) :=
  checkExistingBinds_none_hostConfig _ _ rfl

/-- Observed container used to exercise `flattenVolumes` through the bind
check: one observed volume, destination `"b"` mounted from source `"a"`. -/
def volumesBugInfo : ContainerInfo :=
  ⟨"xid", "I", true, ⟨"img", [], []⟩, none, [("b", "a")]⟩

/-- Desired spec whose only bind is the empty string. -/
def volumesBugContainer : Container :=
  ⟨"x", ⟨"img", [], []⟩, some ⟨[], [""], []⟩, false, false, none, none⟩

/-- C8: `flattenVolumes` on the one-entry map `{"b": "a"}` does not produce
exactly `["a:b"]`: the `make([]string, len(volumes))` slip leaves a leading
empty string per entry, and that empty string is then accepted by the
subset comparison, so the empty bind `""` spuriously passes the bind check. -/
theorem flattenVolumes_at_failing_input :
    flattenVolumes [("b", "a")] = ["", "a:b"] ∧
    flattenVolumes [("b", "a")] ≠ ["a:b"] ∧
    "" ∈ flattenVolumes [("b", "a")] ∧
    Container.checkExistingBinds volumesBugContainer volumesBugInfo = (true, none) := by
  refine ⟨rfl, by decide, by decide, rfl⟩

/-- C7: `CreateWithPull` tries a direct create; exactly when the first
attempt fails with the not-found sentinel it pulls the image and retries the
create once more, returning the second attempt's result; any other
first-attempt error is wrapped and returned with no pull and no retry. -/
theorem createWithPull_spec (σ : Type) (h : Handler σ) (s : σ)
    (cfg : ContainerConfig) (name : String) (ac : Option AuthConfig) :
    (∀ id0 s1, h.createContainer s cfg name = (.ok id0, s1) →
      CreateWithPull h s cfg name ac = ⟨.ok id0, s1, [.create cfg name]⟩) ∧
    (∀ e s1, h.createContainer s cfg name = (.error e, s1) → e ≠ Err.notFound →
      CreateWithPull h s cfg name ac = ⟨.error (.wrapped e), s1, [.create cfg name]⟩) ∧
    (∀ s1, h.createContainer s cfg name = (.error .notFound, s1) →
      CreateWithPull h s cfg name ac =
        (match h.pullImage s1 cfg.image ac with
         | (some e, s2) =>
           ⟨.error (.wrapped e), s2, [.create cfg name, .pull cfg.image ac]⟩
         | (none, s2) =>
           match h.createContainer s2 cfg name with
           | (.ok id1, s3) =>
             ⟨.ok id1, s3, [.create cfg name, .pull cfg.image ac, .create cfg name]⟩
           | (.error e, s3) =>
             ⟨.error (.wrapped e), s3,
               [.create cfg name, .pull cfg.image ac, .create cfg name]⟩)) ∧
    (Call.pull cfg.image ac ∈ (CreateWithPull h s cfg name ac).tr ↔
      (h.createContainer s cfg name).1 = .error Err.notFound) := by
  refine ⟨?_, ?_, ?_, ?_⟩
  · intro id0 s1 hC
    unfold CreateWithPull
    rw [hC]
  · intro e s1 hC hne
    unfold CreateWithPull
    rw [hC]
    simp [hne]
  · intro s1 hC
    unfold CreateWithPull
    rw [hC]
    simp
  · rcases hC : h.createContainer s cfg name with ⟨r, s1⟩
    cases r with
    | ok id0 =>
      unfold CreateWithPull
      rw [hC]
      simp
    | error e =>
      by_cases hne : e = Err.notFound
      · subst hne
        unfold CreateWithPull
        rw [hC]
        simp only [ne_eq, not_true_eq_false, if_false, reduceIte]
        rcases stdP : h.pullImage s1 cfg.image ac with ⟨rp, s2⟩
        cases rp with
        | some e2 => simp
        | none =>
          dsimp only
          rcases hC2 : h.createContainer s2 cfg name with ⟨r2, s3⟩
          cases r2 <;> simp
      · unfold CreateWithPull
        rw [hC]
        simp [hne]

/-- Image available only from the registry in the C7 witness scenario. -/
def c7image : Image := ⟨["pullimg"], "P1"⟩

def c7cfg : ContainerConfig := ⟨"pullimg", ["run"], []⟩

def c7state : EngineState := ⟨[], [], [c7image]⟩

theorem createWithPull_spec_witness :
    CreateWithPull stdEngine c7state c7cfg "svc" none =
      ⟨.ok "svc.id",
       ⟨[("svc", ⟨"svc.id", "P1", false, c7cfg, none, []⟩)], [c7image], [c7image]⟩,
       [.create c7cfg "svc", .pull "pullimg" none, .create c7cfg "svc"]⟩ := by
  have hcase := (createWithPull_spec EngineState stdEngine c7state c7cfg "svc" none).2.2.1
    c7state (by decide)
  rw [hcase]
  decide

theorem imageIDFromList_tr {σ : Type} (h : Handler σ) (s : σ) (n : String) :
    (imageIDFromList h s n).tr = [.listImages] := by
  unfold imageIDFromList
  rcases h.listImages s with ⟨r, s1⟩
  cases r <;> rfl

theorem ImageID_tr_cases {σ : Type} (h : Handler σ) (s : σ) (n : String)
    (a : Option AuthConfig) :
    (ImageID h s n a).tr = [.listImages] ∨
    (ImageID h s n a).tr = [.listImages, .pull n a] ∨
    (ImageID h s n a).tr = [.listImages, .pull n a, .listImages] := by
  unfold ImageID
  rcases hE : imageIDFromList h s n with ⟨r, s1, t1⟩
  have ht1 : t1 = [.listImages] := by
    have hh := imageIDFromList_tr h s n
    rw [hE] at hh
    exact hh
  subst ht1
  cases r with
  | error e => exact Or.inl rfl
  | ok id0 =>
    dsimp only
    by_cases hid : id0 ≠ ""
    · rw [if_pos hid]
      exact Or.inl rfl
    · rw [if_neg hid]
      rcases h.pullImage s1 n a with ⟨rp, s2⟩
      cases rp with
      | some e => exact Or.inr (Or.inl rfl)
      | none =>
        dsimp only
        rcases hE2 : imageIDFromList h s2 n with ⟨r2, s3, t2⟩
        have ht2 : t2 = [.listImages] := by
          have hh := imageIDFromList_tr h s2 n
          rw [hE2] at hh
          exact hh
        subst ht2
        cases r2 with
        | error e => exact Or.inr (Or.inr rfl)
        | ok id1 =>
          dsimp only
          by_cases hid1 : id1 ≠ ""
          · rw [if_pos hid1]
            exact Or.inr (Or.inr rfl)
          · rw [if_neg hid1]
            exact Or.inr (Or.inr rfl)

theorem ImageID_noMut {σ : Type} (h : Handler σ) (s : σ) (n : String)
    (a : Option AuthConfig) :
    noMutation (ImageID h s n a).tr = true := by
  rcases ImageID_tr_cases h s n a with hh | hh | hh <;>
    simp [hh, noMutation, isMutation]

theorem checkExistingImage_st_tr {σ : Type} (c : Container) (h : Handler σ)
    (s : σ) (ci : ContainerInfo) :
    (Container.checkExistingImage c h s ci).st =
      (ImageID h s c.containerConfig.image c.authConfig).st ∧
    (Container.checkExistingImage c h s ci).tr =
      (ImageID h s c.containerConfig.image c.authConfig).tr := by
  unfold Container.checkExistingImage
  rcases ImageID h s c.containerConfig.image c.authConfig with ⟨r, s1, t1⟩
  cases r with
  | error e => exact ⟨rfl, rfl⟩
  | ok d =>
    dsimp only
    by_cases him : ci.image ≠ d
    · rw [if_pos him]
      by_cases hrm : ¬ c.removeExisting
      · rw [if_pos hrm]
        exact ⟨rfl, rfl⟩
      · rw [if_neg hrm]
        exact ⟨rfl, rfl⟩
    · rw [if_neg him]
      exact ⟨rfl, rfl⟩

theorem checkExisting_st_tr {σ : Type} (c : Container) (h : Handler σ)
    (s : σ) (ci : ContainerInfo) :
    (Container.checkExisting c h s ci).st =
      (Container.checkExistingImage c h s ci).st ∧
    (Container.checkExisting c h s ci).tr =
      (Container.checkExistingImage c h s ci).tr := by
  unfold Container.checkExisting
  rcases Container.checkExistingImage c h s ci with ⟨r, s1, t1⟩
  cases r with
  | error e => exact ⟨rfl, rfl⟩
  | ok equal =>
    cases equal with
    | false => simp
    | true =>
      simp only [Bool.not_true]
      rw [if_neg (by simp)]
      cases liftCheck (Container.checkExistingDNS c ci) with
      | some r => exact ⟨rfl, rfl⟩
      | none =>
        cases liftCheck (Container.checkExistingCmd c ci) with
        | some r => exact ⟨rfl, rfl⟩
        | none =>
          cases liftCheck (Container.checkExistingEnv c ci) with
          | some r => exact ⟨rfl, rfl⟩
          | none =>
            cases liftCheck (Container.checkExistingBinds c ci) with
            | some r => exact ⟨rfl, rfl⟩
            | none => exact ⟨rfl, rfl⟩

theorem checkExisting_noMut {σ : Type} (c : Container) (h : Handler σ)
    (s : σ) (ci : ContainerInfo) :
    noMutation (Container.checkExisting c h s ci).tr = true := by
  rw [(checkExisting_st_tr c h s ci).2, (checkExistingImage_st_tr c h s ci).2]
  exact ImageID_noMut h s _ _

/-- C2 (amended): the configuration-matching operation, `checkExisting` with
its five per-axis checks, never issues a CreateContainer, RemoveContainer or
StartContainer call; its only engine calls are the image resolution's
ListImages and, when the desired image is not tagged locally, PullImage. -/
theorem checkExisting_no_container_mutation (σ : Type) (h : Handler σ) (s : σ)
    (c : Container) (ci : ContainerInfo) :
    noMutation (Container.checkExisting c h s ci).tr = true ∧
    noMutation (Container.checkExistingImage c h s ci).tr = true := by
  refine ⟨checkExisting_noMut c h s ci, ?_⟩
  rw [(checkExistingImage_st_tr c h s ci).2]
  exact ImageID_noMut h s _ _

def c2cfg : ContainerConfig := ⟨"c2img", [], []⟩

def c2info : ContainerInfo := ⟨"c2id", "C2", true, c2cfg, none, []⟩

def c2spec : Container := ⟨"c2web", c2cfg, none, false, false, none, none⟩

/-- Engine state whose local catalog lacks the tag `c2img` while the
registry provides it: image resolution inside the matcher then pulls. -/
def c2state : EngineState := ⟨[("c2web", c2info)], [], [⟨["c2img"], "C2"⟩]⟩

theorem checkExisting_calls_pull_counterexample :
    Call.pull "c2img" none ∈ (Container.checkExisting c2spec stdEngine c2state c2info).tr ∧
    (Container.checkExisting c2spec stdEngine c2state c2info).res = .ok true := by
  decide

theorem noMutation_cons (x : Call) (t : List Call) :
    noMutation (x :: t) = (! isMutation x && noMutation t) := by
  simp [noMutation]

/-- The `Apply` path taken when the container exists, is not force-removed,
matches the desired configuration and is already running: terminal success,
and the only engine calls are the inspect and whatever the check itself did. -/
theorem apply_existing_ok {σ : Type} (c : Container) (h : Handler σ) (s s1 : σ)
    (ci : ContainerInfo)
    (hF : c.forceRemoveExisting = false)
    (hI : h.inspectContainer s c.name = (.ok ci, s1))
    (hRun : ci.running = true)
    (hRes : (Container.checkExisting c h s1 ci).res = .ok true) :
    Container.Apply c h s =
      ⟨none, (Container.checkExisting c h s1 ci).st,
        .inspect c.name :: (Container.checkExisting c h s1 ci).tr⟩ := by
  unfold Container.Apply
  rw [hI]
  dsimp only
  rw [hF]
  simp only [Bool.false_eq_true, if_false]
  rcases hC : Container.checkExisting c h s1 ci with ⟨r, s2, t1⟩
  rw [hC] at hRes
  have hr : r = Except.ok true := hRes
  subst hr
  dsimp only
  rw [hRun]
  simp only [if_true]

theorem stdEngine_pull_containers (s : EngineState) (n : String)
    (a : Option AuthConfig) :
    ((stdEngine.pullImage s n a).2).containers = s.containers := by
  simp only [stdEngine]
  rcases findRegistryImage s.registry n with _ | i <;> rfl

/-- Image resolution through the reference engine can change the image
catalog (by pulling) but never the containers. -/
theorem ImageID_preserves_containers (s : EngineState) (n : String)
    (a : Option AuthConfig) :
    ((ImageID stdEngine s n a).st).containers = s.containers := by
  unfold ImageID imageIDFromList
  have hL : stdEngine.listImages s = (.ok s.images, s) := rfl
  rw [hL]
  dsimp only
  by_cases hid : findTagId s.images n ≠ ""
  · rw [if_pos hid]
  · rw [if_neg hid]
    rcases hP : stdEngine.pullImage s n a with ⟨rp, s2⟩
    have hs2 : s2.containers = s.containers := by
      have hh := stdEngine_pull_containers s n a
      rw [hP] at hh
      exact hh
    cases rp with
    | some e => exact hs2
    | none =>
      dsimp only
      have hL2 : stdEngine.listImages s2 = (.ok s2.images, s2) := rfl
      rw [hL2]
      dsimp only
      by_cases hid1 : findTagId s2.images n ≠ ""
      · rw [if_pos hid1]
        exact hs2
      · rw [if_neg hid1]
        exact hs2

/-- When the desired image is already tagged in the reference engine's
catalog, resolution is a single listing with no pull and no state change. -/
theorem ImageID_stdEngine_found (s : EngineState) (n : String)
    (a : Option AuthConfig) (hne : findTagId s.images n ≠ "") :
    ImageID stdEngine s n a = ⟨.ok (findTagId s.images n), s, [.listImages]⟩ := by
  unfold ImageID imageIDFromList
  have hL : stdEngine.listImages s = (.ok s.images, s) := rfl
  rw [hL]
  dsimp only
  rw [if_pos hne]

/-- C3 (amended): when an existing container is found running and all five
checks pass, `Apply` succeeds and issues no RemoveContainer, CreateContainer
or StartContainer call; a PullImage may still occur inside the image check
when the desired image is not locally tagged.  When the desired image is
tagged in the engine's catalog (reference engine), the whole run is the
inspect plus one image listing, the engine state is unchanged, and a second
`Apply` is literally the same run (idempotence). -/
theorem apply_idempotent_when_matching :
    (∀ (σ : Type) (h : Handler σ) (s s1 : σ) (c : Container) (ci : ContainerInfo),
      c.forceRemoveExisting = false →
      h.inspectContainer s c.name = (.ok ci, s1) →
      ci.running = true →
      (Container.checkExisting c h s1 ci).res = .ok true →
      Container.Apply c h s =
        ⟨none, (Container.checkExisting c h s1 ci).st,
          .inspect c.name :: (Container.checkExisting c h s1 ci).tr⟩ ∧
      noMutation (Container.Apply c h s).tr = true) ∧
    (∀ (s : EngineState) (c : Container) (ci : ContainerInfo),
      c.forceRemoveExisting = false →
      lookupContainer s.containers c.name = some ci →
      ci.running = true →
      findTagId s.images c.containerConfig.image = ci.image →
      ci.image ≠ "" →
      (Container.checkExisting c stdEngine s ci).res = .ok true →
      Container.Apply c stdEngine s = ⟨none, s, [.inspect c.name, .listImages]⟩ ∧
      Container.Apply c stdEngine ((Container.Apply c stdEngine s).st) =
        Container.Apply c stdEngine s) := by
  constructor
  · intro σ h s s1 c ci hF hI hRun hRes
    have heq := apply_existing_ok c h s s1 ci hF hI hRun hRes
    refine ⟨heq, ?_⟩
    rw [heq]
    show noMutation (.inspect c.name :: (Container.checkExisting c h s1 ci).tr) = true
    rw [noMutation_cons, checkExisting_noMut]
    rfl
  · intro s c ci hF hLook hRun hFind hne hRes
    have hI : stdEngine.inspectContainer s c.name = (.ok ci, s) := by
      simp only [stdEngine]
      rw [hLook]
    have hImg : ImageID stdEngine s c.containerConfig.image c.authConfig =
        ⟨.ok ci.image, s, [.listImages]⟩ := by
      have hh := ImageID_stdEngine_found s c.containerConfig.image c.authConfig
        (by rw [hFind]; exact hne)
      rw [hFind] at hh
      exact hh
    have hSt : (Container.checkExisting c stdEngine s ci).st = s := by
      rw [(checkExisting_st_tr c stdEngine s ci).1,
        (checkExistingImage_st_tr c stdEngine s ci).1, hImg]
    have hTr : (Container.checkExisting c stdEngine s ci).tr = [.listImages] := by
      rw [(checkExisting_st_tr c stdEngine s ci).2,
        (checkExistingImage_st_tr c stdEngine s ci).2, hImg]
    have heq := apply_existing_ok c stdEngine s s ci hF hI hRun hRes
    rw [hSt, hTr] at heq
    refine ⟨heq, ?_⟩
    have hst : (Container.Apply c stdEngine s).st = s := by rw [heq]
    rw [hst]

def c3cfg : ContainerConfig := ⟨"c3img", [], []⟩

def c3info : ContainerInfo := ⟨"c3id", "C3", true, c3cfg, none, []⟩

def c3spec : Container := ⟨"c3web", c3cfg, none, false, false, none, none⟩

/-- Engine state where the matching container runs but the tag `c3img` is
only available from the registry, so the image check pulls. -/
def c3state : EngineState := ⟨[("c3web", c3info)], [], [⟨["c3img"], "C3"⟩]⟩

theorem apply_matching_pulls_counterexample :
    c3spec.forceRemoveExisting = false ∧
    (stdEngine.inspectContainer c3state c3spec.name).1 = .ok c3info ∧
    c3info.running = true ∧
    (Container.checkExisting c3spec stdEngine c3state c3info).res = .ok true ∧
    (Container.Apply c3spec stdEngine c3state).res = none ∧
    Call.pull "c3img" none ∈ (Container.Apply c3spec stdEngine c3state).tr := by
  decide

def c3wcfg : ContainerConfig := ⟨"c3wimg", [], []⟩

def c3winfo : ContainerInfo := ⟨"c3wid", "C3W", true, c3wcfg, none, []⟩

def c3wspec : Container := ⟨"c3wweb", c3wcfg, none, false, false, none, none⟩

def c3wstate : EngineState := ⟨[("c3wweb", c3winfo)], [⟨["c3wimg"], "C3W"⟩], []⟩

theorem apply_idempotent_when_matching_witness :
    Container.Apply c3wspec stdEngine c3wstate =
      ⟨none, c3wstate, [.inspect "c3wweb", .listImages]⟩ ∧
    Container.Apply c3wspec stdEngine ((Container.Apply c3wspec stdEngine c3wstate).st) =
      Container.Apply c3wspec stdEngine c3wstate := by
  have hh := apply_idempotent_when_matching.2 c3wstate c3wspec c3winfo rfl (by decide)
    rfl (by decide) (by decide) (by decide)
  exact hh

/-- With `removeExisting` unset, a command-suffix failure after passing
image and DNS checks short-circuits `checkExisting` into the structured
command-mismatch error carrying the observed and desired commands. -/
theorem checkExisting_cmd_mismatch {σ : Type} (c : Container) (h : Handler σ)
    (s1 s2 : σ) (ci : ContainerInfo) (t1 : List Call)
    (hR : c.removeExisting = false)
    (hImg : Container.checkExistingImage c h s1 ci = ⟨.ok true, s2, t1⟩)
    (hDNS : Container.checkExistingDNS c ci = (true, none))
    (hCmd : hasSuffixStrSlice ci.config.cmd c.containerConfig.cmd = false) :
    Container.checkExisting c h s1 ci =
      ⟨.error (.cmdMismatch c.name ci.config.cmd c.containerConfig.cmd), s2, t1⟩ := by
  have hcmd2 : Container.checkExistingCmd c ci =
      (false, some (.cmdMismatch c.name ci.config.cmd c.containerConfig.cmd)) := by
    unfold Container.checkExistingCmd
    rw [hCmd, hR]
    simp
  unfold Container.checkExisting
  rw [hImg]
  dsimp only
  rw [if_neg (by simp)]
  rw [hDNS]
  dsimp only [liftCheck]
  rw [hcmd2]

/-- The `Apply` path taken when the container exists, is not force-removed,
and the configuration check fails with an error: that error is returned and
nothing beyond the inspect and the check itself happens. -/
theorem apply_error_of_check_error {σ : Type} (c : Container) (h : Handler σ)
    (s s1 s2 : σ) (ci : ContainerInfo) (e : Err) (t1 : List Call)
    (hF : c.forceRemoveExisting = false)
    (hI : h.inspectContainer s c.name = (.ok ci, s1))
    (hC : Container.checkExisting c h s1 ci = ⟨.error e, s2, t1⟩) :
    Container.Apply c h s = ⟨some e, s2, .inspect c.name :: t1⟩ := by
  unfold Container.Apply
  rw [hI]
  dsimp only
  rw [hF]
  simp only [Bool.false_eq_true, if_false]
  rw [hC]

/-- C5: without `removeExisting`, an existing container whose image and DNS
match but whose observed command does not end in the desired command makes
`Apply` fail with the command-axis mismatch error carrying both values,
after only the inspect and the image check's listing — no RemoveContainer,
CreateContainer or StartContainer call, and (reference engine) the
containers are unchanged. -/
theorem apply_cmd_mismatch_diagnostic :
    (∀ (σ : Type) (h : Handler σ) (s s1 s2 : σ) (c : Container)
        (ci : ContainerInfo) (t1 : List Call),
      c.removeExisting = false →
      c.forceRemoveExisting = false →
      h.inspectContainer s c.name = (.ok ci, s1) →
      Container.checkExistingImage c h s1 ci = ⟨.ok true, s2, t1⟩ →
      Container.checkExistingDNS c ci = (true, none) →
      hasSuffixStrSlice ci.config.cmd c.containerConfig.cmd = false →
      Container.Apply c h s =
        ⟨some (.cmdMismatch c.name ci.config.cmd c.containerConfig.cmd), s2,
          .inspect c.name :: t1⟩ ∧
      noMutation (Container.Apply c h s).tr = true) ∧
    (∀ (s s2 : EngineState) (c : Container) (ci : ContainerInfo) (t1 : List Call),
      c.removeExisting = false →
      c.forceRemoveExisting = false →
      lookupContainer s.containers c.name = some ci →
      Container.checkExistingImage c stdEngine s ci = ⟨.ok true, s2, t1⟩ →
      Container.checkExistingDNS c ci = (true, none) →
      hasSuffixStrSlice ci.config.cmd c.containerConfig.cmd = false →
      ((Container.Apply c stdEngine s).st).containers = s.containers) := by
  constructor
  · intro σ h s s1 s2 c ci t1 hR hF hI hImg hDNS hCmd
    have hchk := checkExisting_cmd_mismatch c h s1 s2 ci t1 hR hImg hDNS hCmd
    have heq := apply_error_of_check_error c h s s1 s2 ci _ t1 hF hI hchk
    refine ⟨heq, ?_⟩
    have ht1 : noMutation t1 = true := by
      have htr := congrArg Out.tr hImg
      dsimp only at htr
      rw [← htr, (checkExistingImage_st_tr c h s1 ci).2]
      exact ImageID_noMut h s1 _ _
    rw [heq, noMutation_cons, ht1]
    rfl
  · intro s s2 c ci t1 hR hF hLook hImg hDNS hCmd
    have hI : stdEngine.inspectContainer s c.name = (.ok ci, s) := by
      simp only [stdEngine]
      rw [hLook]
    have hchk := checkExisting_cmd_mismatch c stdEngine s s2 ci t1 hR hImg hDNS hCmd
    have heq := apply_error_of_check_error c stdEngine s s s2 ci _ t1 hF hI hchk
    have hst : (Container.Apply c stdEngine s).st = s2 := by rw [heq]
    rw [hst]
    have hs2 := congrArg Out.st hImg
    dsimp only at hs2
    rw [← hs2, (checkExistingImage_st_tr c stdEngine s ci).1]
    exact ImageID_preserves_containers s _ _

def c5cfg : ContainerConfig := ⟨"c5img", ["other"], []⟩

def c5obs : ContainerConfig := ⟨"c5img", ["sh", "-c", "run"], []⟩

def c5info : ContainerInfo := ⟨"c5id", "C5", true, c5obs, none, []⟩

def c5spec : Container := ⟨"c5web", c5cfg, none, false, false, none, none⟩

def c5state : EngineState := ⟨[("c5web", c5info)], [⟨["c5img"], "C5"⟩], []⟩

theorem apply_cmd_mismatch_diagnostic_witness :
    Container.Apply c5spec stdEngine c5state =
      ⟨some (.cmdMismatch "c5web" ["sh", "-c", "run"] ["other"]), c5state,
        [.inspect "c5web", .listImages]⟩ ∧
    noMutation (Container.Apply c5spec stdEngine c5state).tr = true ∧
    ((Container.Apply c5spec stdEngine c5state).st).containers = c5state.containers := by
  have h1 := apply_cmd_mismatch_diagnostic.1 EngineState stdEngine c5state c5state c5state
    c5spec c5info [Call.listImages] rfl rfl (by decide) (by decide) (by decide) (by decide)
  have h2 := apply_cmd_mismatch_diagnostic.2 c5state c5state c5spec c5info [Call.listImages]
    rfl rfl (by decide) (by decide) (by decide) (by decide)
  exact ⟨h1.1, h1.2, h2⟩

theorem filter_eq_nil_of_noMutation (t : List Call) (p : Call → Bool)
    (hp : ∀ x, p x = true → isMutation x = true)
    (hm : noMutation t = true) : t.filter p = [] := by
  rw [List.filter_eq_nil_iff]
  intro a ha hpa
  have hall := List.all_eq_true.mp hm a ha
  rw [hp a hpa] at hall
  simp at hall

/-- The full recreate path of `Apply`: check fails without error (the
`removeExisting` signal), remove succeeds, the first create succeeds,
re-inspect and start succeed, and no `afterCreate` hook is set. -/
theorem apply_recreate_eq {σ : Type} (c : Container) (h : Handler σ)
    (s s1 s2 s3 s4 s5 s6 : σ) (ci ci2 : ContainerInfo) (t1 : List Call)
    (id1 : String)
    (hF : c.forceRemoveExisting = false)
    (hAC : c.afterCreate = none)
    (hI : h.inspectContainer s c.name = (.ok ci, s1))
    (hChk : Container.checkExisting c h s1 ci = ⟨.ok false, s2, t1⟩)
    (hRm : h.removeContainer s2 ci.id true false = (none, s3))
    (hCr : h.createContainer s3 c.containerConfig c.name = (.ok id1, s4))
    (hI2 : h.inspectContainer s4 c.name = (.ok ci2, s5))
    (hSt : h.startContainer s5 ci2.id c.hostConfig = (none, s6)) :
    Container.Apply c h s =
      ⟨none, s6, .inspect c.name :: (t1 ++ [.remove ci.id true false] ++
        [.create c.containerConfig c.name, .inspect c.name,
         .start ci2.id c.hostConfig])⟩ := by
  have hCwp : CreateWithPull h s3 c.containerConfig c.name c.authConfig =
      ⟨.ok id1, s4, [.create c.containerConfig c.name]⟩ := by
    unfold CreateWithPull
    rw [hCr]
  have hCreate : Container.applyCreate c h s3 =
      ⟨.ok ci2, s5, [.create c.containerConfig c.name, .inspect c.name]⟩ := by
    unfold Container.applyCreate
    rw [hCwp]
    dsimp only
    rw [hI2]
    rfl
  have hStart : Container.applyStart c h s5 ci2 true =
      ⟨none, s6, [.start ci2.id c.hostConfig]⟩ := by
    unfold Container.applyStart
    rw [hSt]
    dsimp only
    rw [hAC]
  have hPath : Container.applyCreatePath c h s3 =
      ⟨none, s6, [.create c.containerConfig c.name, .inspect c.name,
        .start ci2.id c.hostConfig]⟩ := by
    unfold Container.applyCreatePath
    rw [hCreate]
    dsimp only
    rw [hStart]
    rfl
  unfold Container.Apply
  rw [hI]
  dsimp only
  rw [hF]
  simp only [Bool.false_eq_true, if_false]
  rw [hChk]
  dsimp only
  rw [hRm]
  dsimp only
  rw [hPath]

/-- C6: with `removeExisting` set (and no force-remove, no hook), a
configuration mismatch makes `Apply` remove the existing container, create
a new one and start it — exactly one RemoveContainer, one CreateContainer
and one StartContainer call in the whole run. -/
theorem apply_recreate_on_mismatch (σ : Type) (h : Handler σ)
    (s s1 s2 s3 s4 s5 s6 : σ) (c : Container) (ci ci2 : ContainerInfo)
    (t1 : List Call) (id1 : String)
    (hRem : c.removeExisting = true)
    (hF : c.forceRemoveExisting = false)
    (hAC : c.afterCreate = none)
    (hI : h.inspectContainer s c.name = (.ok ci, s1))
    (hChk : Container.checkExisting c h s1 ci = ⟨.ok false, s2, t1⟩)
    (hRm : h.removeContainer s2 ci.id true false = (none, s3))
    (hCr : h.createContainer s3 c.containerConfig c.name = (.ok id1, s4))
    (hI2 : h.inspectContainer s4 c.name = (.ok ci2, s5))
    (hSt : h.startContainer s5 ci2.id c.hostConfig = (none, s6)) :
    Container.Apply c h s =
      ⟨none, s6, .inspect c.name :: (t1 ++ [.remove ci.id true false] ++
        [.create c.containerConfig c.name, .inspect c.name,
         .start ci2.id c.hostConfig])⟩ ∧
    countCalls isRemoveCall (Container.Apply c h s).tr = 1 ∧
    countCalls isCreateCall (Container.Apply c h s).tr = 1 ∧
    countCalls isStartCall (Container.Apply c h s).tr = 1 := by
  have heq := apply_recreate_eq c h s s1 s2 s3 s4 s5 s6 ci ci2 t1 id1
    hF hAC hI hChk hRm hCr hI2 hSt
  have ht1 : noMutation t1 = true := by
    have htr := congrArg Out.tr hChk
    dsimp only at htr
    rw [← htr]
    exact checkExisting_noMut c h s1 ci
  have hfr := filter_eq_nil_of_noMutation t1 isRemoveCall
    (by intro x hx; cases x <;> simp_all [isRemoveCall, isMutation]) ht1
  have hfc := filter_eq_nil_of_noMutation t1 isCreateCall
    (by intro x hx; cases x <;> simp_all [isCreateCall, isMutation]) ht1
  have hfs := filter_eq_nil_of_noMutation t1 isStartCall
    (by intro x hx; cases x <;> simp_all [isStartCall, isMutation]) ht1
  refine ⟨heq, ?_, ?_, ?_⟩ <;>
    simp [heq, countCalls, List.filter_append, List.filter_cons, hfr, hfc, hfs,
      isRemoveCall, isCreateCall, isStartCall]

def c6cfg : ContainerConfig := ⟨"c6img", [], []⟩

def c6spec : Container :=
  ⟨"c6web", c6cfg, some ⟨["1.1.1.1"], [], []⟩, true, false, none, none⟩

def c6info : ContainerInfo := ⟨"c6old", "C6", true, c6cfg, none, []⟩

def c6info2 : ContainerInfo := ⟨"c6web.id", "C6", false, c6cfg, none, []⟩

def c6state : EngineState := ⟨[("c6web", c6info)], [⟨["c6img"], "C6"⟩], []⟩

def c6mid : EngineState := ⟨[], [⟨["c6img"], "C6"⟩], []⟩

def c6mid2 : EngineState := ⟨[("c6web", c6info2)], [⟨["c6img"], "C6"⟩], []⟩

def c6end : EngineState :=
  ⟨[("c6web", ⟨"c6web.id", "C6", true, c6cfg, none, []⟩)], [⟨["c6img"], "C6"⟩], []⟩

theorem apply_recreate_on_mismatch_witness :
    Container.Apply c6spec stdEngine c6state =
      ⟨none, c6end, [.inspect "c6web", .listImages, .remove "c6old" true false,
        .create c6cfg "c6web", .inspect "c6web",
        .start "c6web.id" (some ⟨["1.1.1.1"], [], []⟩)]⟩ ∧
    countCalls isRemoveCall (Container.Apply c6spec stdEngine c6state).tr = 1 ∧
    countCalls isCreateCall (Container.Apply c6spec stdEngine c6state).tr = 1 ∧
    countCalls isStartCall (Container.Apply c6spec stdEngine c6state).tr = 1 := by
  have hh := apply_recreate_on_mismatch EngineState stdEngine c6state c6state c6state
    c6mid c6mid2 c6mid2 c6end c6spec c6info c6info2 [Call.listImages] "c6web.id"
    rfl rfl rfl (by decide) (by decide) (by decide) (by decide) (by decide) (by decide)
  exact ⟨hh.1, hh.2.1, hh.2.2.1, hh.2.2.2⟩

theorem checkLinks_ok_mem (known started links : List String)
    (hok : checkLinks known started links = .ok) :
    ∀ link ∈ links, linkTarget link ∈ known ∧ linkTarget link ∈ started := by
  induction links with
  | nil =>
    intro link hl
    cases hl
  | cons l rest ih =>
    intro link hl
    rw [checkLinks] at hok
    by_cases h1 : linkTarget l ∉ known
    · rw [if_pos h1] at hok
      simp at hok
    · rw [if_neg h1] at hok
      by_cases h2 : linkTarget l ∉ started
      · rw [if_pos h2] at hok
        simp at hok
      · rw [if_neg h2] at hok
        rcases List.mem_cons.mp hl with hx | hx
        · subst hx
          exact ⟨not_not.mp h1, not_not.mp h2⟩
        · exact ih hok link hx

theorem checkLinks_ne_ok (known started links : List String) (link : String)
    (hmem : link ∈ links) (hunk : linkTarget link ∉ known) :
    checkLinks known started links ≠ .ok := fun hok =>
  absurd (checkLinks_ok_mem known started links hok link hmem).1 hunk

theorem applyRound_applied_sub {σ : Type} (h : Handler σ)
    (known started : List String) :
    ∀ (pending : List Container) (s : σ),
      ∀ x ∈ (applyRound h known started pending s).applied,
        x ∈ pending.map Container.name := by
  intro pending
  induction pending with
  | nil =>
    intro s x hx
    simp [applyRound] at hx
  | cons c rest ih =>
    intro s x hx
    simp only [applyRound] at hx
    cases hcl : checkLinks known started c.links with
    | unknown l =>
      rw [hcl] at hx
      simp at hx
    | deferred =>
      rw [hcl] at hx
      rcases hrr : applyRound h known started rest s with ⟨r1, s1, t1, a1⟩
      rw [hrr] at hx
      have hx1 : x ∈ a1 := by
        cases r1 with
        | ok p =>
          rcases p with ⟨starting, nextRound⟩
          exact hx
        | error e => exact hx
      have := ih s x (by rw [hrr]; exact hx1)
      simp only [List.map_cons, List.mem_cons]
      exact Or.inr this
    | ok =>
      rw [hcl] at hx
      dsimp only at hx
      rcases hap : Container.Apply c h s with ⟨r0, s1, t0⟩
      rw [hap] at hx
      cases r0 with
      | some e =>
        dsimp only at hx
        simp only [List.mem_singleton] at hx
        simp [hx]
      | none =>
        dsimp only at hx
        rcases hrr : applyRound h known started rest s1 with ⟨r1, s2, t2, a1⟩
        rw [hrr] at hx
        have hx1 : x = c.name ∨ x ∈ a1 := by
          cases r1 with
          | ok p =>
            rcases p with ⟨starting, nextRound⟩
            exact List.mem_cons.mp hx
          | error e => exact List.mem_cons.mp hx
        rcases hx1 with hx1 | hx1
        · simp [hx1]
        · have := ih s1 x (by rw [hrr]; exact hx1)
          simp only [List.map_cons, List.mem_cons]
          exact Or.inr this

theorem applyRound_unknown_nextRound {σ : Type} (h : Handler σ)
    (known started : List String) (c : Container) (link : String)
    (hl : link ∈ c.links) (hunk : linkTarget link ∉ known) :
    ∀ (pending : List Container) (s : σ) (starting : List String)
      (nextRound : List Container),
      c ∈ pending →
      (applyRound h known started pending s).res = .ok (starting, nextRound) →
      c ∈ nextRound := by
  intro pending
  induction pending with
  | nil =>
    intro s starting nextRound hc _
    cases hc
  | cons c0 rest ih =>
    intro s starting nextRound hc hres
    simp only [applyRound] at hres
    cases hcl : checkLinks known started c0.links with
    | unknown l =>
      rw [hcl] at hres
      simp at hres
    | deferred =>
      rw [hcl] at hres
      rcases hrr : applyRound h known started rest s with ⟨r1, s1, t1, a1⟩
      rw [hrr] at hres
      cases r1 with
      | ok p =>
        rcases p with ⟨starting1, nextRound1⟩
        dsimp only at hres
        injection hres with h1
        injection h1 with h1a h1b
        subst h1b
        rcases List.mem_cons.mp hc with hx | hx
        · subst hx
          simp
        · have := ih s starting1 nextRound1 hx (by rw [hrr])
          simp [this]
      | error e =>
        dsimp only at hres
        simp at hres
    | ok =>
      have hne : c ≠ c0 := by
        intro hcc
        subst hcc
        exact checkLinks_ne_ok known started c.links link hl hunk hcl
      have hc' : c ∈ rest := by
        rcases List.mem_cons.mp hc with hx | hx
        · exact absurd hx hne
        · exact hx
      rw [hcl] at hres
      dsimp only at hres
      rcases hap : Container.Apply c0 h s with ⟨r0, s1, t0⟩
      rw [hap] at hres
      cases r0 with
      | some e =>
        dsimp only at hres
        simp at hres
      | none =>
        dsimp only at hres
        rcases hrr : applyRound h known started rest s1 with ⟨r1, s2, t2, a1⟩
        rw [hrr] at hres
        cases r1 with
        | ok p =>
          rcases p with ⟨starting1, nextRound1⟩
          dsimp only at hres
          injection hres with h1
          injection h1 with h1a h1b
          subst h1b
          exact ih s1 starting1 nextRound1 hc' (by rw [hrr])
        | error e =>
          dsimp only at hres
          simp at hres

theorem applyRounds_ne_ok {σ : Type} (h : Handler σ) (known : List String)
    (c : Container) (link : String)
    (hl : link ∈ c.links) (hunk : linkTarget link ∉ known) :
    ∀ (fuel : Nat) (pending : List Container) (started : List String) (s : σ),
      c ∈ pending →
      (applyRounds h known fuel pending started s).res ≠ .ok := by
  intro fuel
  induction fuel with
  | zero =>
    intro pending started s hc
    cases pending with
    | nil => cases hc
    | cons c0 rest => simp [applyRounds]
  | succ f ih =>
    intro pending started s hc
    cases pending with
    | nil => cases hc
    | cons c0 rest =>
      simp only [applyRounds]
      rcases hrr : applyRound h known started (c0 :: rest) s with ⟨r1, s1, t1, a1⟩
      cases r1 with
      | error e =>
        dsimp only
        simp
      | ok p =>
        rcases p with ⟨starting, nextRound⟩
        dsimp only
        have hcn : c ∈ nextRound :=
          applyRound_unknown_nextRound h known started c link hl hunk
            (c0 :: rest) s starting nextRound hc (by rw [hrr])
        rcases hrr2 : applyRounds h known f nextRound (started ++ starting) s1 with
          ⟨r2, s2, t2, a2⟩
        dsimp only
        have hrec := ih nextRound (started ++ starting) s1 hcn
        rw [hrr2] at hrec
        exact hrec

theorem applyRound_nextRound_sublist {σ : Type} (h : Handler σ)
    (known started : List String) :
    ∀ (pending : List Container) (s : σ) (starting : List String)
      (nextRound : List Container),
      (applyRound h known started pending s).res = .ok (starting, nextRound) →
      nextRound.Sublist pending := by
  intro pending
  induction pending with
  | nil =>
    intro s starting nextRound hres
    simp only [applyRound] at hres
    injection hres with h1
    injection h1 with h1a h1b
    subst h1b
    exact List.nil_sublist _
  | cons c0 rest ih =>
    intro s starting nextRound hres
    simp only [applyRound] at hres
    cases hcl : checkLinks known started c0.links with
    | unknown l =>
      rw [hcl] at hres
      dsimp only at hres
      simp at hres
    | deferred =>
      rw [hcl] at hres
      dsimp only at hres
      rcases hrr : applyRound h known started rest s with ⟨r1, s1, t1, a1⟩
      rw [hrr] at hres
      cases r1 with
      | ok p =>
        rcases p with ⟨starting1, nextRound1⟩
        dsimp only at hres
        injection hres with h1
        injection h1 with h1a h1b
        subst h1b
        exact (ih s starting1 nextRound1 (by rw [hrr])).cons₂ c0
      | error e =>
        dsimp only at hres
        simp at hres
    | ok =>
      rw [hcl] at hres
      dsimp only at hres
      rcases hap : Container.Apply c0 h s with ⟨r0, s1, t0⟩
      rw [hap] at hres
      cases r0 with
      | some e =>
        dsimp only at hres
        simp at hres
      | none =>
        dsimp only at hres
        rcases hrr : applyRound h known started rest s1 with ⟨r1, s2, t2, a1⟩
        rw [hrr] at hres
        cases r1 with
        | ok p =>
          rcases p with ⟨starting1, nextRound1⟩
          dsimp only at hres
          injection hres with h1
          injection h1 with h1a h1b
          subst h1b
          exact (ih s1 starting1 nextRound1 (by rw [hrr])).cons c0
        | error e =>
          dsimp only at hres
          simp at hres

theorem applyRound_ok_starting_eq {σ : Type} (h : Handler σ)
    (known started : List String) :
    ∀ (pending : List Container) (s s1 : σ) (starting : List String)
      (nextRound : List Container) (t1 : List Call) (a1 : List String),
      applyRound h known started pending s = ⟨.ok (starting, nextRound), s1, t1, a1⟩ →
      starting = a1 := by
  intro pending
  induction pending with
  | nil =>
    intro s s1 starting nextRound t1 a1 hres
    simp only [applyRound] at hres
    injection hres with h1 h2 h3 h4
    injection h1 with h1'
    injection h1' with h1a h1b
    rw [← h1a, ← h4]
  | cons c0 rest ih =>
    intro s s1 starting nextRound t1 a1 hres
    simp only [applyRound] at hres
    cases hcl : checkLinks known started c0.links with
    | unknown l =>
      rw [hcl] at hres
      dsimp only at hres
      injection hres with h1 h2 h3 h4
      simp at h1
    | deferred =>
      rw [hcl] at hres
      dsimp only at hres
      rcases hrr : applyRound h known started rest s with ⟨r1, s2, t2, a2⟩
      rw [hrr] at hres
      cases r1 with
      | ok p =>
        rcases p with ⟨starting1, nextRound1⟩
        dsimp only at hres
        injection hres with h1 h2 h3 h4
        injection h1 with h1'
        injection h1' with h1a h1b
        rw [← h1a, ← h4]
        exact ih s s2 starting1 nextRound1 t2 a2 hrr
      | error e =>
        dsimp only at hres
        injection hres with h1
        simp at h1
    | ok =>
      rw [hcl] at hres
      dsimp only at hres
      rcases hap : Container.Apply c0 h s with ⟨r0, s2, t0⟩
      rw [hap] at hres
      cases r0 with
      | some e =>
        dsimp only at hres
        injection hres with h1
        simp at h1
      | none =>
        dsimp only at hres
        rcases hrr : applyRound h known started rest s2 with ⟨r1, s3, t2, a2⟩
        rw [hrr] at hres
        cases r1 with
        | ok p =>
          rcases p with ⟨starting1, nextRound1⟩
          dsimp only at hres
          injection hres with h1 h2 h3 h4
          injection h1 with h1'
          injection h1' with h1a h1b
          rw [← h1a, ← h4]
          rw [ih s2 s3 starting1 nextRound1 t2 a2 hrr]
        | error e =>
          dsimp only at hres
          injection hres with h1
          simp at h1

theorem applyRound_ok_mem {σ : Type} (h : Handler σ)
    (known started : List String) :
    ∀ (pending : List Container) (s s1 : σ) (starting : List String)
      (nextRound : List Container) (t1 : List Call) (a1 : List String),
      applyRound h known started pending s = ⟨.ok (starting, nextRound), s1, t1, a1⟩ →
      ∀ c ∈ pending, c.name ∈ a1 ∨ c ∈ nextRound := by
  intro pending
  induction pending with
  | nil =>
    intro s s1 starting nextRound t1 a1 _ c hc
    cases hc
  | cons c0 rest ih =>
    intro s s1 starting nextRound t1 a1 hres c hc
    simp only [applyRound] at hres
    cases hcl : checkLinks known started c0.links with
    | unknown l =>
      rw [hcl] at hres
      dsimp only at hres
      injection hres with h1
      simp at h1
    | deferred =>
      rw [hcl] at hres
      dsimp only at hres
      rcases hrr : applyRound h known started rest s with ⟨r1, s2, t2, a2⟩
      rw [hrr] at hres
      cases r1 with
      | ok p =>
        rcases p with ⟨starting1, nextRound1⟩
        dsimp only at hres
        injection hres with h1 h2 h3 h4
        injection h1 with h1'
        injection h1' with h1a h1b
        subst h4
        rcases List.mem_cons.mp hc with hx | hx
        · subst hx
          rw [← h1b]
          simp
        · rcases ih s s2 starting1 nextRound1 t2 a2 hrr c hx with hm | hm
          · exact Or.inl hm
          · right
            rw [← h1b]
            simp [hm]
      | error e =>
        dsimp only at hres
        injection hres with h1
        simp at h1
    | ok =>
      rw [hcl] at hres
      dsimp only at hres
      rcases hap : Container.Apply c0 h s with ⟨r0, s2, t0⟩
      rw [hap] at hres
      cases r0 with
      | some e =>
        dsimp only at hres
        injection hres with h1
        simp at h1
      | none =>
        dsimp only at hres
        rcases hrr : applyRound h known started rest s2 with ⟨r1, s3, t2, a2⟩
        rw [hrr] at hres
        cases r1 with
        | ok p =>
          rcases p with ⟨starting1, nextRound1⟩
          dsimp only at hres
          injection hres with h1 h2 h3 h4
          injection h1 with h1'
          injection h1' with h1a h1b
          subst h4
          rcases List.mem_cons.mp hc with hx | hx
          · subst hx
            simp
          · rcases ih s2 s3 starting1 nextRound1 t2 a2 hrr c hx with hm | hm
            · left
              simp [hm]
            · right
              rw [← h1b]
              exact hm
        | error e =>
          dsimp only at hres
          injection hres with h1
          simp at h1

theorem applyRound_applied_links {σ : Type} (h : Handler σ)
    (known started : List String) :
    ∀ (pending : List Container) (s : σ) (c : Container),
      c ∈ pending → (pending.map Container.name).Nodup →
      c.name ∈ (applyRound h known started pending s).applied →
      ∀ link ∈ c.links, linkTarget link ∈ known ∧ linkTarget link ∈ started := by
  intro pending
  induction pending with
  | nil =>
    intro s c hc _ _
    cases hc
  | cons c0 rest ih =>
    intro s c hc hnd hx
    rw [List.map_cons, List.nodup_cons] at hnd
    obtain ⟨hnd1, hnd2⟩ := hnd
    simp only [applyRound] at hx
    cases hcl : checkLinks known started c0.links with
    | unknown l =>
      rw [hcl] at hx
      dsimp only at hx
      simp at hx
    | deferred =>
      rw [hcl] at hx
      dsimp only at hx
      rcases hrr : applyRound h known started rest s with ⟨r1, s1, t1, a1⟩
      rw [hrr] at hx
      have hx1 : c.name ∈ a1 := by
        cases r1 with
        | ok p =>
          rcases p with ⟨starting, nextRound⟩
          exact hx
        | error e => exact hx
      have hcrest : c ∈ rest := by
        rcases List.mem_cons.mp hc with hceq | hcr
        · exfalso
          subst hceq
          have hsub := applyRound_applied_sub h known started rest s c.name
            (by rw [hrr]; exact hx1)
          exact hnd1 hsub
        · exact hcr
      exact ih s c hcrest hnd2 (by rw [hrr]; exact hx1)
    | ok =>
      rw [hcl] at hx
      dsimp only at hx
      rcases hap : Container.Apply c0 h s with ⟨r0, s1, t0⟩
      rw [hap] at hx
      cases r0 with
      | some e =>
        dsimp only at hx
        have hceq : c.name = c0.name := by simpa using hx
        rcases List.mem_cons.mp hc with hceq2 | hcr
        · subst hceq2
          exact checkLinks_ok_mem known started c.links hcl
        · exfalso
          apply hnd1
          rw [← hceq]
          exact List.mem_map_of_mem Container.name hcr
      | none =>
        dsimp only at hx
        rcases hrr : applyRound h known started rest s1 with ⟨r1, s2, t2, a1⟩
        rw [hrr] at hx
        have hx1 : c.name = c0.name ∨ c.name ∈ a1 := by
          cases r1 with
          | ok p =>
            rcases p with ⟨starting, nextRound⟩
            exact List.mem_cons.mp hx
          | error e => exact List.mem_cons.mp hx
        rcases List.mem_cons.mp hc with hceq2 | hcr
        · subst hceq2
          exact checkLinks_ok_mem known started c.links hcl
        · rcases hx1 with hceq | hx1
          · exfalso
            apply hnd1
            rw [← hceq]
            exact List.mem_map_of_mem Container.name hcr
          · exact ih s1 c hcr hnd2 (by rw [hrr]; exact hx1)

theorem applyRound_unknown_notApplied {σ : Type} (h : Handler σ)
    (known started : List String) (pending : List Container) (s : σ)
    (c : Container) (link : String)
    (hc : c ∈ pending) (hnd : (pending.map Container.name).Nodup)
    (hl : link ∈ c.links) (hunk : linkTarget link ∉ known) :
    c.name ∉ (applyRound h known started pending s).applied := fun hx =>
  absurd (applyRound_applied_links h known started pending s c hc hnd hx link hl).1 hunk

theorem applyRounds_unknown_notApplied {σ : Type} (h : Handler σ)
    (known : List String) (c : Container) (link : String)
    (hl : link ∈ c.links) (hunk : linkTarget link ∉ known) :
    ∀ (fuel : Nat) (pending : List Container) (started : List String) (s : σ),
      c ∈ pending → (pending.map Container.name).Nodup →
      c.name ∉ (applyRounds h known fuel pending started s).applied := by
  intro fuel
  induction fuel with
  | zero =>
    intro pending started s hc hnd
    cases pending with
    | nil => cases hc
    | cons c0 rest => simp [applyRounds]
  | succ f ih =>
    intro pending started s hc hnd
    cases pending with
    | nil => cases hc
    | cons c0 rest =>
      simp only [applyRounds]
      rcases hrr : applyRound h known started (c0 :: rest) s with ⟨r1, s1, t1, a1⟩
      have hna1 : c.name ∉ a1 := by
        have hh := applyRound_unknown_notApplied h known started (c0 :: rest) s c link
          hc hnd hl hunk
        rw [hrr] at hh
        exact hh
      cases r1 with
      | error e =>
        dsimp only
        exact hna1
      | ok p =>
        rcases p with ⟨starting, nextRound⟩
        dsimp only
        rcases hrr2 : applyRounds h known f nextRound (started ++ starting) s1 with
          ⟨r2, s2, t2, a2⟩
        dsimp only
        have hcn : c ∈ nextRound :=
          applyRound_unknown_nextRound h known started c link hl hunk
            (c0 :: rest) s starting nextRound hc (by rw [hrr])
        have hndn : (nextRound.map Container.name).Nodup := by
          have hsub := applyRound_nextRound_sublist h known started (c0 :: rest) s
            starting nextRound (by rw [hrr])
          exact hnd.sublist (hsub.map Container.name)
        have hna2 : c.name ∉ a2 := by
          have hh := ih nextRound (started ++ starting) s1 hcn hndn
          rw [hrr2] at hh
          exact hh
        intro hmem
        rcases List.mem_append.mp hmem with hm | hm
        · exact hna1 hm
        · exact hna2 hm

theorem applyRounds_link_order {σ : Type} (h : Handler σ) (known : List String) :
    ∀ (fuel : Nat) (pending : List Container) (started : List String) (s : σ)
      (c : Container),
      c ∈ pending → (pending.map Container.name).Nodup →
      c.name ∈ (applyRounds h known fuel pending started s).applied →
      ∃ p q, (applyRounds h known fuel pending started s).applied = p ++ c.name :: q ∧
        ∀ link ∈ c.links, linkTarget link ∈ started ++ p := by
  intro fuel
  induction fuel with
  | zero =>
    intro pending started s c hc hnd hx
    cases pending with
    | nil => cases hc
    | cons c0 rest => simp [applyRounds] at hx
  | succ f ih =>
    intro pending started s c hc hnd hx
    cases pending with
    | nil => cases hc
    | cons c0 rest =>
      simp only [applyRounds] at hx ⊢
      rcases hrr : applyRound h known started (c0 :: rest) s with ⟨r1, s1, t1, a1⟩
      rw [hrr] at hx
      cases r1 with
      | error e =>
        dsimp only at hx ⊢
        have hlinks := applyRound_applied_links h known started (c0 :: rest) s c hc hnd
          (by rw [hrr]; exact hx)
        rcases List.append_of_mem hx with ⟨p, q, hpq⟩
        exact ⟨p, q, hpq, fun link hl =>
          List.mem_append.mpr (Or.inl (hlinks link hl).2)⟩
      | ok pp =>
        rcases pp with ⟨starting, nextRound⟩
        dsimp only at hx ⊢
        rcases hrr2 : applyRounds h known f nextRound (started ++ starting) s1 with
          ⟨r2, s2, t2, a2⟩
        rw [hrr2] at hx
        dsimp only at hx ⊢
        have hstart_eq : starting = a1 :=
          applyRound_ok_starting_eq h known started (c0 :: rest) s s1 starting
            nextRound t1 a1 hrr
        by_cases hm1 : c.name ∈ a1
        · have hlinks := applyRound_applied_links h known started (c0 :: rest) s c hc hnd
            (by rw [hrr]; exact hm1)
          rcases List.append_of_mem hm1 with ⟨p, q, hpq⟩
          refine ⟨p, q ++ a2, ?_, ?_⟩
          · rw [hpq]
            simp
          · intro link hl
            exact List.mem_append.mpr (Or.inl (hlinks link hl).2)
        · have hm2 : c.name ∈ a2 := by
            rcases List.mem_append.mp hx with hm | hm
            · exact absurd hm hm1
            · exact hm
          have hcn : c ∈ nextRound := by
            rcases applyRound_ok_mem h known started (c0 :: rest) s s1 starting
              nextRound t1 a1 hrr c hc with hmm | hmm
            · exact absurd hmm hm1
            · exact hmm
          have hndn : (nextRound.map Container.name).Nodup := by
            have hsub := applyRound_nextRound_sublist h known started (c0 :: rest) s
              starting nextRound (by rw [hrr])
            exact hnd.sublist (hsub.map Container.name)
          have hrec := ih nextRound (started ++ starting) s1 c hcn hndn
            (by rw [hrr2]; exact hm2)
          rw [hrr2] at hrec
          dsimp only at hrec
          rcases hrec with ⟨p2, q2, hpq2, htar⟩
          refine ⟨a1 ++ p2, q2, ?_, ?_⟩
          · rw [hpq2]
            simp
          · intro link hl
            have hmem := htar link hl
            rw [hstart_eq] at hmem
            simpa [List.append_assoc] using hmem

/-- Two-spec batch `[n1, n2]` where `n1` links to `n2`: the whole run is
`n2`'s reconciliation first, then (only on its success) `n1`'s, with the
traces concatenated in that order. -/
theorem applyGraph_two_spec {σ : Type} (h : Handler σ) (fuel : Nat) (s : σ)
    (n1 n2 : Container) (link : String)
    (hfuel : 2 ≤ fuel)
    (hl1 : n1.links = [link])
    (ht : linkTarget link = n2.name)
    (hl2 : n2.links = []) :
    ApplyGraph h fuel [n1, n2] s =
      (match Container.Apply n2 h s with
       | ⟨some e, s2, t2⟩ => ⟨.err e, s2, t2, [n2.name]⟩
       | ⟨none, s2, t2⟩ =>
         match Container.Apply n1 h s2 with
         | ⟨some e, s3, t3⟩ => ⟨.err e, s3, t2 ++ t3, [n2.name, n1.name]⟩
         | ⟨none, s3, t3⟩ => ⟨.ok, s3, t2 ++ t3, [n2.name, n1.name]⟩) := by
  obtain ⟨f, rfl⟩ : ∃ f, fuel = f + 2 := ⟨fuel - 2, by omega⟩
  have hcl1 : checkLinks [n1.name, n2.name] [] n1.links = .deferred := by
    rw [hl1, checkLinks, ht]
    rw [if_neg (by simp), if_pos (by simp)]
  have hcl1' : checkLinks [n1.name, n2.name] [n2.name] n1.links = .ok := by
    rw [hl1, checkLinks, ht]
    rw [if_neg (by simp), if_neg (by simp)]
    rfl
  have hcl2 : checkLinks [n1.name, n2.name] [] n2.links = .ok := by
    rw [hl2]
    rfl
  have hround1 : applyRound h [n1.name, n2.name] [] [n1, n2] s =
      (match Container.Apply n2 h s with
       | ⟨some e, s2, t2⟩ => ⟨.error e, s2, t2, [n2.name]⟩
       | ⟨none, s2, t2⟩ => ⟨.ok ([n2.name], [n1]), s2, t2, [n2.name]⟩) := by
    simp only [applyRound]
    rw [hcl1, hcl2]
    rcases hA2 : Container.Apply n2 h s with ⟨r2, s2, t2⟩
    cases r2 with
    | some e => rfl
    | none => simp
  have hround2 : ∀ s2 : σ, applyRound h [n1.name, n2.name] [n2.name] [n1] s2 =
      (match Container.Apply n1 h s2 with
       | ⟨some e, s3, t3⟩ => ⟨.error e, s3, t3, [n1.name]⟩
       | ⟨none, s3, t3⟩ => ⟨.ok ([n1.name], []), s3, t3, [n1.name]⟩) := by
    intro s2
    simp only [applyRound]
    rw [hcl1']
    rcases hA1 : Container.Apply n1 h s2 with ⟨r1, s3, t3⟩
    cases r1 with
    | some e => rfl
    | none => simp
  show applyRounds h (List.map Container.name [n1, n2]) (f + 1 + 1) [n1, n2] [] s = _
  simp only [List.map_cons, List.map_nil]
  simp only [applyRounds]
  rw [hround1]
  rcases hA2 : Container.Apply n2 h s with ⟨r2, s2, t2⟩
  cases r2 with
  | some e => rfl
  | none =>
    dsimp only
    simp only [List.nil_append]
    simp only [applyRounds]
    rw [hround2 s2]
    rcases hA1 : Container.Apply n1 h s2 with ⟨r1, s3, t3⟩
    cases r1 with
    | some e => rfl
    | none => simp [applyRounds]

/-- C1 (amended): when some container in the batch declares a link whose
target is not among the batch's names, `ApplyGraph` can never return
success, and no engine call is ever made on behalf of that container (its
`Apply` is never invoked; with the batch's names distinct, its name never
enters the applied list).  The unknown-link error is raised right before the
declaring container's own `Apply`, so when that container is first in the
batch (its first link being the unknown one) the call fails immediately with
zero engine calls; containers processed earlier in the iteration order may
already have been reconciled by then. -/
theorem applyGraph_unknownLink (σ : Type) (h : Handler σ) (fuel : Nat)
    (cs : List Container) (s : σ) (c : Container) (link : String)
    (hc : c ∈ cs) (hl : link ∈ c.links)
    (hu : linkTarget link ∉ cs.map Container.name) :
    (ApplyGraph h fuel cs s).res ≠ .ok ∧
    ((cs.map Container.name).Nodup → c.name ∉ (ApplyGraph h fuel cs s).applied) ∧
    (∀ rest ls, cs = c :: rest → c.links = link :: ls → 0 < fuel →
      ApplyGraph h fuel cs s = ⟨.err (.unknownLink c.name link), s, [], []⟩) := by
  refine ⟨?_, ?_, ?_⟩
  · exact applyRounds_ne_ok h (cs.map Container.name) c link hl hu fuel cs [] s hc
  · intro hnd
    exact applyRounds_unknown_notApplied h (cs.map Container.name) c link hl hu
      fuel cs [] s hc hnd
  · intro rest ls hcs hlinks hf
    obtain ⟨f, rfl⟩ : ∃ f, fuel = f + 1 := ⟨fuel - 1, by omega⟩
    subst hcs
    have hcl : checkLinks ((c :: rest).map Container.name) [] c.links =
        .unknown link := by
      rw [hlinks, checkLinks]
      rw [if_pos hu]
    show applyRounds h ((c :: rest).map Container.name) (f + 1) (c :: rest) [] s = _
    simp only [applyRounds, applyRound]
    rw [hcl]

def c1spec : Container :=
  ⟨"c1a", ⟨"c1img", [], []⟩, some ⟨[], [], ["missing:x"]⟩, false, false, none, none⟩

def c1state : EngineState := ⟨[], [], []⟩

theorem applyGraph_unknownLink_witness :
    (ApplyGraph stdEngine 1 [c1spec] c1state).res ≠ .ok ∧
    "c1a" ∉ (ApplyGraph stdEngine 1 [c1spec] c1state).applied ∧
    ApplyGraph stdEngine 1 [c1spec] c1state =
      ⟨.err (.unknownLink "c1a" "missing:x"), c1state, [], []⟩ := by
  have hh := applyGraph_unknownLink EngineState stdEngine 1 [c1spec] c1state c1spec
    "missing:x" (by simp) (by decide) (by decide)
  exact ⟨hh.1, hh.2.1 (by decide), hh.2.2 [] [] rfl rfl (by decide)⟩

def c1okspec : Container := ⟨"c1ok", ⟨"c1i", [], []⟩, none, false, false, none, none⟩

def c1badspec : Container :=
  ⟨"c1bad", ⟨"c1i", [], []⟩, some ⟨[], [], ["missing:alias"]⟩, false, false, none, none⟩

def c1okinfo : ContainerInfo := ⟨"c1okid", "C1I", true, ⟨"c1i", [], []⟩, none, []⟩

def c1cstate : EngineState := ⟨[("c1ok", c1okinfo)], [⟨["c1i"], "C1I"⟩], []⟩

theorem applyGraph_unknownLink_not_eager :
    (ApplyGraph stdEngine 2 [c1okspec, c1badspec] c1cstate).res =
      .err (.unknownLink "c1bad" "missing:alias") ∧
    Call.inspect "c1ok" ∈ (ApplyGraph stdEngine 2 [c1okspec, c1badspec] c1cstate).tr := by
  decide

/-- C4: for the batch `[n1, n2]` with `n1` linking to `n2`, `ApplyGraph`
completes `n2`'s reconciliation (all of its engine calls) strictly before
any engine call of `n1`, and only proceeds to `n1` when `n2` succeeded; in
general, in any run with distinct names, a container is applied only after
all of its link targets appear earlier in the applied order. -/
theorem applyGraph_dependency_order :
    (∀ (σ : Type) (h : Handler σ) (fuel : Nat) (s : σ) (n1 n2 : Container)
        (link : String),
      2 ≤ fuel → n1.links = [link] → linkTarget link = n2.name → n2.links = [] →
      ApplyGraph h fuel [n1, n2] s =
        (match Container.Apply n2 h s with
         | ⟨some e, s2, t2⟩ => ⟨.err e, s2, t2, [n2.name]⟩
         | ⟨none, s2, t2⟩ =>
           match Container.Apply n1 h s2 with
           | ⟨some e, s3, t3⟩ => ⟨.err e, s3, t2 ++ t3, [n2.name, n1.name]⟩
           | ⟨none, s3, t3⟩ => ⟨.ok, s3, t2 ++ t3, [n2.name, n1.name]⟩)) ∧
    (∀ (σ : Type) (h : Handler σ) (fuel : Nat) (cs : List Container) (s : σ)
        (c : Container),
      c ∈ cs → (cs.map Container.name).Nodup →
      c.name ∈ (ApplyGraph h fuel cs s).applied →
      ∃ p q, (ApplyGraph h fuel cs s).applied = p ++ c.name :: q ∧
        ∀ link ∈ c.links, linkTarget link ∈ p) := by
  constructor
  · intro σ h fuel s n1 n2 link hf h1 h2 h3
    exact applyGraph_two_spec h fuel s n1 n2 link hf h1 h2 h3
  · intro σ h fuel cs s c hc hnd hx
    have hh := applyRounds_link_order h (cs.map Container.name) fuel cs [] s c hc hnd hx
    rcases hh with ⟨p, q, hpq, htar⟩
    refine ⟨p, q, hpq, fun link hl => ?_⟩
    have := htar link hl
    simpa using this

def c4cfg : ContainerConfig := ⟨"c4i", [], []⟩

def c4n2 : Container := ⟨"c4n2", c4cfg, none, false, false, none, none⟩

def c4n1 : Container :=
  ⟨"c4n1", c4cfg, some ⟨[], [], ["c4n2:foo"]⟩, false, false, none, none⟩

def c4i1 : ContainerInfo := ⟨"c4id1", "C4I", true, c4cfg, none, []⟩

def c4i2 : ContainerInfo := ⟨"c4id2", "C4I", true, c4cfg, none, []⟩

def c4state : EngineState :=
  ⟨[("c4n1", c4i1), ("c4n2", c4i2)], [⟨["c4i"], "C4I"⟩], []⟩

theorem applyGraph_dependency_order_witness :
    ApplyGraph stdEngine 2 [c4n1, c4n2] c4state =
      ⟨.ok, c4state, [.inspect "c4n2", .listImages, .inspect "c4n1", .listImages],
        ["c4n2", "c4n1"]⟩ := by
  have hh := applyGraph_dependency_order.1 EngineState stdEngine 2 c4state c4n1 c4n2
    "c4n2:foo" (by omega) rfl (by decide) rfl
  rw [hh]
  decide

end Dockergoal
